import Mathlib

/-
Verification of the ocpm package manager (src/ocpm) against its specification.
Python string and dict operations are modelled at the character / association
list level; fallible code returns Except or Option.
-/

set_option autoImplicit false

namespace OCPM

/-! ## Character-level models of the Python string operations used by the code -/

/-- Python str.lower, character by character. -/
def lowerStr (s : String) : String := ⟨s.data.map Char.toLower⟩

/-- Python str.endswith. -/
def strEndsWith (s t : String) : Bool := t.data.isSuffixOf s.data

/-- Worker for `splitSub`: splits a character list on each non-overlapping
occurrence of a (nonempty) separator, left to right, like Python str.split(sep).
Fuel bounds the recursion; it is always called with enough fuel. -/
def splitSubGo (sep : List Char) : Nat → List Char → List Char → List (List Char)
  | 0, acc, cs => [acc.reverse ++ cs]
  | fuel + 1, acc, cs =>
    if sep.isPrefixOf cs ∧ sep ≠ [] then
      acc.reverse :: splitSubGo sep fuel [] (cs.drop sep.length)
    else
      match cs with
      | [] => [acc.reverse]
      | c :: rest => splitSubGo sep fuel (c :: acc) rest

/-- Python s.split(sep) for a nonempty separator, on character lists. -/
def splitSub (cs sep : List Char) : List (List Char) :=
  splitSubGo sep (cs.length + 1) [] cs

/-- Python `sub in s` (substring containment), for a nonempty sub. -/
def containsSub (s sub : String) : Bool := decide (2 ≤ (splitSub s.data sub.data).length)

/-- Python s.split(sub)[0]: the part of `s` before the first occurrence of `sub`. -/
def strBefore (s sub : String) : String := ⟨((splitSub s.data sub.data).headD [])⟩

/-- Python s.replace(sub, ''): removes every occurrence of `sub`. -/
def removeSub (s sub : String) : String := ⟨(splitSub s.data sub.data).foldl (· ++ ·) []⟩

/-! ## Data model (src/ocpm/models.py) -/

/-- Raw GitHub asset object: exactly the fields of the asset dict that the code
reads (models.py, Artifact.from_github). -/
structure AssetRaw where
  size : Nat
  browser_download_url : String
  name : String
deriving Repr, DecidableEq

/-- models.py Artifact. -/
structure Artifact where
  size : Nat
  url : String
  name : String
deriving Repr, DecidableEq

/-- models.py Artifact.from_github. -/
def Artifact.from_github (a : AssetRaw) : Artifact :=
  ⟨a.size, a.browser_download_url, a.name⟩

/-- Raw GitHub release object: the fields of the release dict that the code reads. -/
structure ReleaseRaw where
  tag_name : String
  prerelease : Bool
  assets : List AssetRaw
deriving Repr, DecidableEq

/-- models.py Artifact.find_from_release. `none` models the uncaught IndexError
raised by `assets[0]` on an empty (filtered) asset list. -/
def Artifact.find_from_release (raw : ReleaseRaw) : Option Artifact :=
  let assets := raw.assets
  if assets.length = 1 then
    assets.head?.map Artifact.from_github
  else
    let assets := assets.filter (fun a => ! strEndsWith a.name "DEBUG.zip")
    assets.head?.map Artifact.from_github

/-- models.py Release. -/
structure Release where
  tag : String
  raw : ReleaseRaw
  artifact : Artifact
deriving Repr, DecidableEq

/-- models.py Release.from_github: strips a leading 'v' from the tag and selects
the artifact. `none` models the IndexError propagated from artifact selection. -/
def Release.from_github (raw : ReleaseRaw) : Option Release :=
  let tag := if raw.tag_name.data.head? = some 'v' then ⟨raw.tag_name.data.tail⟩ else raw.tag_name
  (Artifact.find_from_release raw).map (fun a => ⟨tag, raw, a⟩)

/-! ### Claims C2 and C10: artifact selection -/

/-- Claim C2: for a release with exactly one asset, selection returns that asset;
for a release with more than one asset it returns the first asset, in the host
order, whose name does not end in "DEBUG.zip"; the result is a function of the
asset list, hence deterministic. -/
theorem find_from_release_selects (raw : ReleaseRaw) :
    (∀ a, raw.assets = [a] →
      Artifact.find_from_release raw = some (Artifact.from_github a)) ∧
    (1 < raw.assets.length → ∀ a,
      (raw.assets.filter (fun x => ! strEndsWith x.name "DEBUG.zip")).head? = some a →
      Artifact.find_from_release raw = some (Artifact.from_github a)) := by
  constructor
  · intro a ha
    simp [Artifact.find_from_release, ha]
  · intro hlen a ha
    have hne : raw.assets.length ≠ 1 := by omega
    simp [Artifact.find_from_release, hne, ha]

/-- Witness for C2: on assets ["x-DEBUG.zip", "x.zip"] selection returns "x.zip". -/
theorem find_from_release_selects_witness :
    Artifact.find_from_release
      ⟨"v1", false, [⟨1, "u1", "x-DEBUG.zip"⟩, ⟨2, "u2", "x.zip"⟩]⟩ =
      some (Artifact.from_github ⟨2, "u2", "x.zip"⟩) :=
  (find_from_release_selects ⟨"v1", false, [⟨1, "u1", "x-DEBUG.zip"⟩, ⟨2, "u2", "x.zip"⟩]⟩).2
    (by decide) ⟨2, "u2", "x.zip"⟩ (by decide)

/-! ## Release resolution (src/ocpm/main.py, get_latest_release / get_latest_list) -/

/-- A repository-mapping value: either a bare repository URL string, or a
structured record carrying a Repo URL and an optional Artifact hint
(main.py lines 41-45; the hint is read but never used). -/
inductive RepoInfo where
  | simple (repo : String)
  | detailed (repo : String) (artifact : Option String)
deriving Repr, DecidableEq

/-- The repository URL of a mapping value (main.py lines 41-44). -/
def RepoInfo.repo : RepoInfo → String
  | .simple r => r
  | .detailed r _ => r

/-- The mapping stored under the top-level Repos key of the YAML file. -/
abbrev ReposDict := List (String × RepoInfo)

/-- Reading a Python dict built from a list of key/value pairs: later pairs
overwrite earlier ones. -/
def dictGet {α : Type} (l : List (String × α)) (k : String) : Option α :=
  (l.reverse.find? (fun p => p.1 == k)).map Prod.snd

/-- The Python exceptions the modelled code can raise. -/
inductive PyErr where
  | assertionError (msg : String)
  | indexError
  | fileNotFoundError
  | keyError
deriving Repr, DecidableEq

/-- main.py line 34: rebuild the Repos mapping with lowercased keys. -/
def lowerKeys (repos : ReposDict) : ReposDict :=
  repos.map (fun p => (lowerStr p.1, p.2))

/-- The repository identifier after the github.com/ prefix, i.e.
repo.split('github.com/')[1] (main.py line 48). `none` models an IndexError,
which cannot occur once the containment assert has passed. -/
def repoId (repo : String) : Option String :=
  ((splitSub repo.data "github.com/".data).get? 1).map (fun cs => ⟨cs⟩)

/-- Prerelease filtering (main.py lines 55-56). -/
def eligible (pre : Bool) (rs : List ReleaseRaw) : List ReleaseRaw :=
  if pre then rs else rs.filter (fun r => ! r.prerelease)

/-- main.py get_latest_release. The network is abstracted as a function from
the repository identifier to the JSON release list the host API returns for it
(an auth token header does not change the shape of the result). Failure modes:
AssertionError for a name missing from the mapping or a repository URL not on
github.com; IndexError for an empty eligible release list (releases[0]) or
propagated from artifact selection. -/
def get_latest_release (name : String) (repos : ReposDict) (pre : Bool)
    (net : String → List ReleaseRaw) : Except PyErr Release :=
  let reposL := lowerKeys repos
  let nameL := lowerStr name
  match dictGet reposL nameL with
  | none => .error (.assertionError ("Kext " ++ nameL ++ " is not found in our repos."))
  | some info =>
    let repo := info.repo
    if containsSub repo "github.com/" then
      match repoId repo with
      | none => .error .indexError
      | some rid =>
        match (eligible pre (net rid)).head? with
        | none => .error .indexError
        | some latest =>
          match Release.from_github latest with
          | none => .error .indexError
          | some r => .ok r
    else
      .error (.assertionError ("For " ++ nameL ++ ": " ++ repo ++ " is not a github repo, skipping..."))

/-- The closure inside get_latest_list (main.py lines 146-151): it catches only
AssertionError, printing the message and returning None; any other exception
escapes the worker. -/
def get_latest (name : String) (repos : ReposDict) (pre : Bool)
    (net : String → List ReleaseRaw) : Except PyErr (Option Release) :=
  match get_latest_release name repos pre net with
  | .ok r => .ok (some r)
  | .error (.assertionError _) => .ok none
  | .error e => .error e

/-- Worker for get_latest_list: results are collected in input order and the
first uncaught worker exception, in input order, is re-raised by thread_map
when that result is collected, aborting the whole call. -/
def getLatestGo (repos : ReposDict) (pre : Bool) (net : String → List ReleaseRaw) :
    List String → Except PyErr (List (Option Release))
  | [] => .ok []
  | n :: ns =>
    match get_latest n repos pre net with
    | .error e => .error e
    | .ok v =>
      match getLatestGo repos pre net ns with
      | .error e => .error e
      | .ok vs => .ok (v :: vs)

/-- main.py get_latest_list. -/
def get_latest_list (names : List String) (repos : ReposDict) (pre : Bool)
    (net : String → List ReleaseRaw) : Except PyErr (List (Option Release)) :=
  getLatestGo repos pre net names

/-- A resolution outcome the pipeline recovers from: success, or an
AssertionError (caught and turned into an absent result). -/
def recoverable (r : Except PyErr Release) : Bool :=
  match r with
  | .ok _ => true
  | .error (.assertionError _) => true
  | .error _ => false

theorem get_latest_eq_of_recoverable (name : String) (repos : ReposDict) (pre : Bool)
    (net : String → List ReleaseRaw)
    (h : recoverable (get_latest_release name repos pre net) = true) :
    get_latest name repos pre net = .ok (get_latest_release name repos pre net).toOption := by
  unfold get_latest recoverable at *
  cases hr : get_latest_release name repos pre net with
  | ok r => simp [Except.toOption]
  | error e =>
    cases e <;> simp_all [Except.toOption]

theorem get_latest_release_absent (name : String) (repos : ReposDict) (pre : Bool)
    (net : String → List ReleaseRaw)
    (h : dictGet (lowerKeys repos) (lowerStr name) = none) :
    get_latest_release name repos pre net =
      .error (.assertionError ("Kext " ++ lowerStr name ++ " is not found in our repos.")) := by
  unfold get_latest_release
  simp [h]

/-! ### Claim C4: per-package isolation of release resolution -/

/-- Claim C4: when every package resolves or fails recoverably, resolution
returns a list aligned with the input positions: slot i holds exactly the
outcome of resolving names[i] (absent on a recoverable failure, e.g. a name
missing from the repository mapping), so one failure never disturbs siblings. -/
theorem get_latest_list_isolates (names : List String) (repos : ReposDict) (pre : Bool)
    (net : String → List ReleaseRaw)
    (h : ∀ n ∈ names, recoverable (get_latest_release n repos pre net) = true) :
    ∃ l, get_latest_list names repos pre net = .ok l ∧
      l.length = names.length ∧
      (∀ i, l.get? i =
        (names.get? i).map (fun n => (get_latest_release n repos pre net).toOption)) ∧
      (∀ i n, names.get? i = some n →
        dictGet (lowerKeys repos) (lowerStr n) = none → l.get? i = some none) := by
  induction names with
  | nil =>
    exact ⟨[], rfl, rfl, by intro i; cases i <;> rfl, by intro i n hi; cases i <;> simp at hi⟩
  | cons n ns ih =>
    obtain ⟨l, hl, hlen, hget, habs⟩ := ih (fun m hm => h m (List.mem_cons_of_mem _ hm))
    have hn : get_latest n repos pre net = .ok (get_latest_release n repos pre net).toOption :=
      get_latest_eq_of_recoverable n repos pre net (h n (List.mem_cons_self _ _))
    refine ⟨(get_latest_release n repos pre net).toOption :: l, ?_, by simp [hlen], ?_, ?_⟩
    · show getLatestGo repos pre net (n :: ns) = _
      have hl' : getLatestGo repos pre net ns = Except.ok l := hl
      simp [getLatestGo, hn, hl']
    · intro i
      cases i with
      | zero => rfl
      | succ j => simpa using hget j
    · intro i m hi hm
      cases i with
      | zero =>
        have hnm : n = m := by simpa using hi
        have habs0 := get_latest_release_absent n repos pre net (by rw [hnm]; exact hm)
        simp [habs0, Except.toOption]
      | succ j =>
        exact habs j m (by simpa using hi) hm

/-- A small concrete repository mapping used by concrete test theorems. -/
def demoRepos : ReposDict := [("Lilu", RepoInfo.simple "https://github.com/acidanthera/Lilu")]

/-- A concrete network: every repository lists one release with one asset. -/
def demoNet : String → List ReleaseRaw :=
  fun _ => [⟨"v1.6.1", false, [⟨123456, "u", "Lilu-1.6.1-RELEASE.zip"⟩]⟩]

/-- Witness for C4: a mapped package and an unmapped sibling; the sibling yields
an absent result at its own position, the mapped package still resolves. -/
theorem get_latest_list_isolates_witness :
    ∃ l, get_latest_list ["Lilu", "Unknownkext"] demoRepos false demoNet = .ok l ∧
      l.length = ["Lilu", "Unknownkext"].length ∧
      (∀ i, l.get? i = (["Lilu", "Unknownkext"].get? i).map
        (fun n => (get_latest_release n demoRepos false demoNet).toOption)) ∧
      (∀ i n, ["Lilu", "Unknownkext"].get? i = some n →
        dictGet (lowerKeys demoRepos) (lowerStr n) = none → l.get? i = some none) :=
  get_latest_list_isolates ["Lilu", "Unknownkext"] demoRepos false demoNet (by decide)

/-! ### Claim C5: empty eligible release list -/

/-- Mapping with two GitHub-hosted packages, used to exhibit batch abortion. -/
def emptyRelRepos : ReposDict :=
  [("A", RepoInfo.simple "https://github.com/x/a"), ("B", RepoInfo.simple "https://github.com/x/b")]

/-- Network where repository x/a has no releases and x/b has one good release. -/
def emptyRelNet : String → List ReleaseRaw :=
  fun rid => if rid = "x/a" then [] else [⟨"v1.0", false, [⟨1, "u", "b.zip"⟩]⟩]

/-- Counterexample to C5 as stated: package A has an empty release list; its
failure is NOT recovered per package — the whole resolution aborts with the
IndexError, so sibling B is not resolved either. -/
theorem fetch_empty_not_recovered :
    get_latest_list ["A", "B"] emptyRelRepos false emptyRelNet = .error .indexError := by
  rfl

theorem containsSub_of_repoId (r rid : String) (h : repoId r = some rid) :
    containsSub r "github.com/" = true := by
  unfold repoId at h
  cases hg : (splitSub r.data "github.com/".data).get? 1 with
  | none => rw [hg] at h; simp at h
  | some cs =>
    obtain ⟨hlt, -⟩ := List.get?_eq_some.mp hg
    unfold containsSub
    exact decide_eq_true (by omega)

/-- Claim C5 (amended): a package whose eligible release list (after prerelease
filtering) is empty makes get_latest_release fail with an IndexError, and that
failure is NOT recovered per package: only AssertionError is caught, so the
IndexError aborts the whole batch resolution (no sibling results are returned). -/
theorem fetch_empty_release_list_aborts (name : String) (repos : ReposDict) (pre : Bool)
    (net : String → List ReleaseRaw) (names : List String) (i : Nat)
    (info : RepoInfo) (rid : String)
    (hname : dictGet (lowerKeys repos) (lowerStr name) = some info)
    (hgh : repoId info.repo = some rid)
    (hempty : eligible pre (net rid) = [])
    (hi : names.get? i = some name)
    (hbefore : ∀ j n, j < i → names.get? j = some n →
      recoverable (get_latest_release n repos pre net) = true) :
    get_latest_release name repos pre net = .error .indexError ∧
    get_latest_list names repos pre net = .error .indexError := by
  have hfail : get_latest_release name repos pre net = .error .indexError := by
    simp [get_latest_release, hname, containsSub_of_repoId _ _ hgh, hgh, hempty]
  have hlist : ∀ (ns : List String) (k : Nat), ns.get? k = some name →
      (∀ j n, j < k → ns.get? j = some n →
        recoverable (get_latest_release n repos pre net) = true) →
      getLatestGo repos pre net ns = .error .indexError := by
    intro ns
    induction ns with
    | nil => intro k hk _; cases k <;> simp at hk
    | cons m ms ih =>
      intro k hk hb
      cases k with
      | zero =>
        have hm : m = name := by simpa using hk
        simp [getLatestGo, get_latest, hm, hfail]
      | succ j =>
        have hrec : recoverable (get_latest_release m repos pre net) = true :=
          hb 0 m (Nat.succ_pos j) (by simp)
        have hgl := get_latest_eq_of_recoverable m repos pre net hrec
        have hms : getLatestGo repos pre net ms = .error .indexError :=
          ih j (by simpa using hk)
            (fun j' n' hj' hn' => hb (j' + 1) n' (Nat.succ_lt_succ hj') (by simpa using hn'))
        simp [getLatestGo, hgl, hms]
  exact ⟨hfail, hlist names i hi hbefore⟩

/-- Claim C10: artifact selection is total only when the release has exactly
one asset or some asset name not ending in "DEBUG.zip": on a release with no
assets, or with two or more assets all named with the debug suffix, the final
index is out of bounds (modelled by `none`, an uncaught IndexError), so no
artifact and no release is produced; and whenever such a release is the chosen
latest release of a package, even the error-catching resolution wrapper fails
with the IndexError rather than returning an artifact or the recoverable
absent-result marker. -/
theorem find_from_release_partial (raw : ReleaseRaw)
    (h : raw.assets = [] ∨
      (2 ≤ raw.assets.length ∧ ∀ a ∈ raw.assets, strEndsWith a.name "DEBUG.zip" = true)) :
    Artifact.find_from_release raw = none ∧ Release.from_github raw = none ∧
    (∀ (name : String) (repos : ReposDict) (pre : Bool) (net : String → List ReleaseRaw)
      (info : RepoInfo) (rid : String),
      dictGet (lowerKeys repos) (lowerStr name) = some info →
      repoId info.repo = some rid →
      (eligible pre (net rid)).head? = some raw →
      get_latest name repos pre net = .error .indexError) := by
  have hfind : Artifact.find_from_release raw = none := by
    rcases h with h | ⟨hlen, hall⟩
    · simp [Artifact.find_from_release, h]
    · have hne : raw.assets.length ≠ 1 := by omega
      have hfilter : raw.assets.filter (fun x => ! strEndsWith x.name "DEBUG.zip") = [] := by
        rw [List.filter_eq_nil_iff]
        intro a ha
        simp [hall a ha]
      simp [Artifact.find_from_release, hne, hfilter]
  have hrel : Release.from_github raw = none := by
    simp [Release.from_github, hfind]
  refine ⟨hfind, hrel, ?_⟩
  intro name repos pre net info rid hname hgh hhead
  have hglr : get_latest_release name repos pre net = .error .indexError := by
    simp [get_latest_release, hname, containsSub_of_repoId _ _ hgh, hgh, hhead, hrel]
  simp [get_latest, hglr]

/-- Witness for C10: a two-asset release with only DEBUG builds selects nothing,
and its package resolution fails unrecovered. -/
theorem find_from_release_partial_witness :
    Artifact.find_from_release
      ⟨"v1", false, [⟨1, "u1", "a-DEBUG.zip"⟩, ⟨2, "u2", "b-DEBUG.zip"⟩]⟩ = none ∧
    Release.from_github
      ⟨"v1", false, [⟨1, "u1", "a-DEBUG.zip"⟩, ⟨2, "u2", "b-DEBUG.zip"⟩]⟩ = none ∧
    (∀ (name : String) (repos : ReposDict) (pre : Bool) (net : String → List ReleaseRaw)
      (info : RepoInfo) (rid : String),
      dictGet (lowerKeys repos) (lowerStr name) = some info →
      repoId info.repo = some rid →
      (eligible pre (net rid)).head? =
        some ⟨"v1", false, [⟨1, "u1", "a-DEBUG.zip"⟩, ⟨2, "u2", "b-DEBUG.zip"⟩]⟩ →
      get_latest name repos pre net = .error .indexError) :=
  find_from_release_partial
    ⟨"v1", false, [⟨1, "u1", "a-DEBUG.zip"⟩, ⟨2, "u2", "b-DEBUG.zip"⟩]⟩
    (Or.inr ⟨by decide, by decide⟩)

/-- Witness for the amended C5 at the concrete two-package scenario. -/
theorem fetch_empty_release_list_aborts_witness :
    get_latest_release "A" emptyRelRepos false emptyRelNet = .error .indexError ∧
    get_latest_list ["A", "B"] emptyRelRepos false emptyRelNet = .error .indexError :=
  fetch_empty_release_list_aborts "A" emptyRelRepos false emptyRelNet ["A", "B"] 0
    (RepoInfo.simple "https://github.com/x/a") "x/a"
    (by rfl) (by rfl) (by rfl) (by rfl)
    (fun j n hj _ => absurd hj (Nat.not_lt_zero j))

/-! ## Filesystem model -/

/-- A filesystem path, as its list of components (pathlib joins map to list
append, Path.parent to dropLast, Path.name to the last component). -/
abbrev FPath := List String

/-- A filesystem object: an (empty) directory created by mkdir, a plain file,
or a directory tree with abstract content. -/
inductive FObj where
  | dir
  | file (id : Nat)
  | tree (id : Nat)
deriving Repr, DecidableEq

/-- A flat filesystem: an association list from paths to objects. -/
structure FS where
  entries : List (FPath × FObj)
deriving Repr, DecidableEq

/-- First entry at a path (paths are unique in any state the code builds). -/
def entFind (p : FPath) : List (FPath × FObj) → Option FObj
  | [] => none
  | e :: l => if e.1 = p then some e.2 else entFind p l

/-- Removes every entry at a path. -/
def entErase (p : FPath) : List (FPath × FObj) → List (FPath × FObj)
  | [] => []
  | e :: l => if e.1 = p then entErase p l else e :: entErase p l

def FS.lookup (fs : FS) (p : FPath) : Option FObj := entFind p fs.entries

def FS.erase (fs : FS) (p : FPath) : FS := ⟨entErase p fs.entries⟩

def FS.insert (fs : FS) (p : FPath) (o : FObj) : FS :=
  ⟨(p, o) :: (fs.erase p).entries⟩

/-- shutil.move of a whole path: a rename, not a copy; the source entry
disappears and its object reappears at the destination. -/
def FS.move (fs : FS) (src dst : FPath) : FS :=
  match fs.lookup src with
  | none => fs
  | some o => (fs.erase src).insert dst o

/-- hypy_utils ensure_dir: creates the directory if absent and returns it. -/
def FS.mkdirp (fs : FS) (p : FPath) : FS :=
  match fs.lookup p with
  | some _ => fs
  | none => fs.insert p .dir

/-- Python Path.is_file. -/
def FS.isFile (fs : FS) (p : FPath) : Bool :=
  match fs.lookup p with
  | some (.file _) => true
  | _ => false

/-- Python Path.is_dir. -/
def FS.isDir (fs : FS) (p : FPath) : Bool :=
  match fs.lookup p with
  | some .dir => true
  | some (.tree _) => true
  | _ => false

theorem entFind_entErase_self (p : FPath) (l : List (FPath × FObj)) :
    entFind p (entErase p l) = none := by
  induction l with
  | nil => rfl
  | cons e l ih =>
    by_cases he : e.1 = p
    · simp [entErase, he, ih]
    · simp [entErase, entFind, he, ih]

theorem entFind_entErase_ne (p q : FPath) (l : List (FPath × FObj)) (h : p ≠ q) :
    entFind q (entErase p l) = entFind q l := by
  induction l with
  | nil => rfl
  | cons e l ih =>
    by_cases he : e.1 = p
    · have heq : ¬ e.1 = q := by rw [he]; exact h
      simp only [entErase, if_pos he]
      rw [ih]
      simp only [entFind, if_neg heq]
    · simp only [entErase, if_neg he]
      by_cases heq : e.1 = q
      · simp [entFind, heq]
      · simp [entFind, heq, ih]

theorem FS.lookup_insert_self (fs : FS) (p : FPath) (o : FObj) :
    (fs.insert p o).lookup p = some o := by
  simp [FS.insert, FS.lookup, entFind]

theorem FS.lookup_erase_self (fs : FS) (p : FPath) : (fs.erase p).lookup p = none :=
  entFind_entErase_self p fs.entries

theorem FS.lookup_erase_ne (fs : FS) (p q : FPath) (h : p ≠ q) :
    (fs.erase p).lookup q = fs.lookup q :=
  entFind_entErase_ne p q fs.entries h

theorem FS.lookup_insert_ne (fs : FS) (p q : FPath) (o : FObj) (h : p ≠ q) :
    (fs.insert p o).lookup q = fs.lookup q := by
  simp only [FS.insert, FS.lookup, entFind, if_neg h]
  exact FS.lookup_erase_ne fs p q h

theorem FS.lookup_move_dst (fs : FS) (src dst : FPath) (o : FObj)
    (hsrc : fs.lookup src = some o) : (fs.move src dst).lookup dst = some o := by
  simp [FS.move, hsrc, FS.lookup_insert_self]

theorem FS.lookup_move_src (fs : FS) (src dst : FPath) (hne : src ≠ dst)
    (hsrc : (fs.lookup src).isSome) : (fs.move src dst).lookup src = none := by
  obtain ⟨o, ho⟩ := Option.isSome_iff_exists.mp hsrc
  simp [FS.move, ho, FS.lookup_insert_ne _ _ _ _ (Ne.symm hne), FS.lookup_erase_self]

theorem FS.lookup_move_other (fs : FS) (src dst p : FPath) (h1 : p ≠ src) (h2 : p ≠ dst) :
    (fs.move src dst).lookup p = fs.lookup p := by
  unfold FS.move
  cases ho : fs.lookup src with
  | none => rfl
  | some o =>
    rw [FS.lookup_insert_ne _ _ _ _ (Ne.symm h2), FS.lookup_erase_ne _ _ _ (Ne.symm h1)]

/-! ### Claim C6: download idempotence -/

/-- The download-relevant world state: the scratch filesystem plus the log of
network requests performed. -/
structure DlState where
  fs : FS
  requests : List String
deriving Repr, DecidableEq

/-- main.py download_file: if a file of the target name already exists, the
network fetch is skipped and the path returned as is; otherwise the url is
fetched (one request recorded) and the body written to the file. The network
maps a url to abstract content. -/
def download_file (url : String) (file : FPath) (net : String → Nat) (st : DlState) :
    DlState × FPath :=
  if st.fs.isFile file then (st, file)
  else ({ fs := st.fs.insert file (.file (net url)), requests := st.requests ++ [url] }, file)

/-- Claim C6: downloading is idempotent on the scratch file: when the target
file already exists, download performs no network request, leaves the whole
filesystem (hence the file's contents) unchanged, and returns the same path. -/
theorem download_file_idempotent (url : String) (file : FPath) (net : String → Nat)
    (st : DlState) (h : st.fs.isFile file = true) :
    download_file url file net st = (st, file) := by
  simp [download_file, h]

/-- Witness for C6 at a concrete scratch state holding the target file. -/
theorem download_file_idempotent_witness :
    download_file "https://host/x.zip" ["tmp", "x.zip"] (fun _ => 5)
      ⟨⟨[(["tmp", "x.zip"], FObj.file 9)]⟩, []⟩ =
      (⟨⟨[(["tmp", "x.zip"], FObj.file 9)]⟩, []⟩, ["tmp", "x.zip"]) :=
  download_file_idempotent "https://host/x.zip" ["tmp", "x.zip"] (fun _ => 5)
    ⟨⟨[(["tmp", "x.zip"], FObj.file 9)]⟩, []⟩ (by rfl)

/-! ### Claim C3: the backup stage of a transaction -/

/-- An installed kext record (models.py Kext); optional metadata defaults to
absent. -/
structure Kext where
  path : FPath
  name : String
  version : String
  id : Option String := none
  sdk_os : Option String := none
  min_os : Option String := none
deriving Repr, DecidableEq

/-- The run's backup directory (main.py line 132): efi.parent / Backups/<ts>,
where ts is the timestamp the run formats at minute resolution. -/
def backupPath (efi : FPath) (ts : String) : FPath := efi.dropLast ++ ["Backups", ts]

/-- The backup stage of download_updates (main.py lines 129-135): among the
extracted packages, those whose installed path is a directory on disk are moved
into the backup directory (created on demand), each stored under its Kext name
field; when none exists, nothing is created or moved. `extracted` pairs each
package with its extracted scratch path. -/
def backupStage (efi : FPath) (ts : String) (extracted : List (Kext × FPath)) (fs : FS) : FS :=
  let existing := extracted.filter (fun t => fs.isDir t.1.path)
  if 0 < existing.length then
    let fs1 := fs.mkdirp (backupPath efi ts)
    existing.foldl (fun acc t => acc.move t.1.path (backupPath efi ts ++ [t.1.name])) fs1
  else fs

theorem foldl_move_spec (bp : FPath) (l : List (Kext × FPath)) :
    ∀ (fs0 : FS),
      (l.map (fun u => u.1.path)).Nodup →
      (l.map (fun u => u.1.name)).Nodup →
      (∀ u ∈ l, (fs0.lookup u.1.path).isSome) →
      (∀ u ∈ l, fs0.lookup (bp ++ [u.1.name]) = none) →
      (∀ u ∈ l, ∀ v ∈ l, u.1.path ≠ bp ++ [v.1.name]) →
      (∀ u ∈ l,
        (l.foldl (fun acc t => acc.move t.1.path (bp ++ [t.1.name])) fs0).lookup
            (bp ++ [u.1.name]) = fs0.lookup u.1.path ∧
        (l.foldl (fun acc t => acc.move t.1.path (bp ++ [t.1.name])) fs0).lookup
            u.1.path = none) ∧
      (∀ p, (∀ u ∈ l, p ≠ u.1.path ∧ p ≠ bp ++ [u.1.name]) →
        (l.foldl (fun acc t => acc.move t.1.path (bp ++ [t.1.name])) fs0).lookup p =
          fs0.lookup p) := by
  induction l with
  | nil =>
    intro fs0 _ _ _ _ _
    exact ⟨(by intro u hu; cases hu), (by intro p _; rfl)⟩
  | cons t l ih =>
    intro fs0 hpaths hnames hsrc htgt hdisj
    rw [List.map_cons, List.nodup_cons] at hpaths hnames
    obtain ⟨htp, hpl⟩ := hpaths
    obtain ⟨htn, hnl⟩ := hnames
    set tgt := bp ++ [t.1.name] with htgtdef
    have hmemt : t ∈ t :: l := List.mem_cons_self _ _
    have hpath_ne : ∀ u ∈ l, u.1.path ≠ t.1.path := by
      intro u hu heq
      exact htp (List.mem_map.mpr ⟨u, hu, heq⟩)
    have hname_ne : ∀ u ∈ l, u.1.name ≠ t.1.name := by
      intro u hu heq
      exact htn (List.mem_map.mpr ⟨u, hu, heq⟩)
    have htne : t.1.path ≠ tgt := hdisj t hmemt t hmemt
    obtain ⟨o, ho⟩ := Option.isSome_iff_exists.mp (hsrc t hmemt)
    have hfs0' : ∀ u ∈ l, (fs0.move t.1.path tgt).lookup u.1.path = fs0.lookup u.1.path := by
      intro u hu
      exact FS.lookup_move_other fs0 _ _ _ (hpath_ne u hu)
        (hdisj u (List.mem_cons_of_mem _ hu) t hmemt)
    have htgt0' : ∀ u ∈ l, (fs0.move t.1.path tgt).lookup (bp ++ [u.1.name]) = none := by
      intro u hu
      have h1 : bp ++ [u.1.name] ≠ t.1.path :=
        fun h => hdisj t hmemt u (List.mem_cons_of_mem _ hu) h.symm
      have h2 : bp ++ [u.1.name] ≠ tgt := by
        intro h
        exact hname_ne u hu (List.cons.injEq _ _ _ _ ▸ List.append_cancel_left h |>.1)
      rw [FS.lookup_move_other fs0 _ _ _ h1 h2]
      exact htgt u (List.mem_cons_of_mem _ hu)
    have ihl := ih (fs0.move t.1.path tgt) hpl hnl
      (fun u hu => by rw [hfs0' u hu]; exact hsrc u (List.mem_cons_of_mem _ hu))
      htgt0'
      (fun u hu v hv => hdisj u (List.mem_cons_of_mem _ hu) v (List.mem_cons_of_mem _ hv))
    rw [List.foldl_cons]
    constructor
    · intro u hu
      rcases List.mem_cons.mp hu with hut | hul
      · rw [hut]
        constructor
        · have hframe := ihl.2 tgt (by
            intro v hv
            refine ⟨fun h => hdisj v (List.mem_cons_of_mem _ hv) t hmemt h.symm, fun h => ?_⟩
            exact hname_ne v hv (List.cons.injEq _ _ _ _ ▸ List.append_cancel_left h.symm |>.1))
          rw [hframe, FS.lookup_move_dst fs0 _ _ o ho, ho]
        · have hframe := ihl.2 t.1.path (by
            intro v hv
            exact ⟨fun h => hpath_ne v hv h.symm, hdisj t hmemt v (List.mem_cons_of_mem _ hv)⟩)
          rw [hframe, FS.lookup_move_src fs0 _ _ htne (hsrc t hmemt)]
      · exact ⟨by rw [(ihl.1 u hul).1]; exact hfs0' u hul, (ihl.1 u hul).2⟩
    · intro p hp
      have hframe := ihl.2 p (fun u hu => hp u (List.mem_cons_of_mem _ hu))
      rw [hframe]
      exact FS.lookup_move_other fs0 _ _ _ (hp t hmemt).1 (hp t hmemt).2

/-- A concrete installed package whose bundle directory name (Lilu.kext)
differs from its name field (Lilu), as produced by any install. -/
def liluKext : Kext := { path := ["EFI", "OC", "Kexts", "Lilu.kext"], name := "Lilu", version := "1.6.0" }

/-- A filesystem holding only the installed Lilu.kext directory. -/
def preFS : FS := ⟨[(["EFI", "OC", "Kexts", "Lilu.kext"], FObj.tree 7)]⟩

/-- Counterexample to C3 as stated: the backup does not preserve the original
directory name. The installed directory Lilu.kext is stored in the backup
directory under the package's name field Lilu (the bundle suffix dropped):
nothing is at Backups/ts/Lilu.kext, and the content sits at Backups/ts/Lilu. -/
theorem backup_drops_directory_name :
    (backupStage ["EFI"] "07-15 10-30" [(liluKext, ["tmp", "extract", "Lilu.kext"])]
        preFS).lookup (backupPath ["EFI"] "07-15 10-30" ++ ["Lilu.kext"]) = none ∧
    (backupStage ["EFI"] "07-15 10-30" [(liluKext, ["tmp", "extract", "Lilu.kext"])]
        preFS).lookup (backupPath ["EFI"] "07-15 10-30" ++ ["Lilu"]) = some (FObj.tree 7) := by
  constructor <;> rfl

theorem ne_append_singleton (bp : FPath) (x : String) : bp ≠ bp ++ [x] := by
  intro h
  have := congrArg List.length h
  simp at this

theorem FS.isSome_of_isDir (fs : FS) (p : FPath) (h : fs.isDir p = true) :
    (fs.lookup p).isSome := by
  unfold FS.isDir at h
  cases hl : fs.lookup p with
  | none => rw [hl] at h; simp at h
  | some o => simp

/-- Claim C3 (amended): after the backup stage, every package in the batch whose
installed directory existed on disk has that directory moved (renamed, not
copied) into a single freshly created backup directory named by the run's
minute-resolution timestamp adjacent to the EFI install root — stored under the
package's name field, not its original directory name; a package with no
pre-existing directory is skipped (no backup entry appears for it), and a batch
with no pre-existing directories creates no backup directory at all. -/
theorem backup_stage_spec (efi : FPath) (ts : String) (extracted : List (Kext × FPath))
    (fs : FS) (t : Kext × FPath)
    (hmem : t ∈ extracted)
    (hpaths : (extracted.map (fun u => u.1.path)).Nodup)
    (hnames : (extracted.map (fun u => u.1.name)).Nodup)
    (htargets : ∀ u ∈ extracted, fs.lookup (backupPath efi ts ++ [u.1.name]) = none)
    (hdisj : ∀ u ∈ extracted, ∀ v ∈ extracted,
      u.1.path ≠ backupPath efi ts ++ [v.1.name])
    (hnotbp : ∀ u ∈ extracted, u.1.path ≠ backupPath efi ts)
    (hbp : fs.lookup (backupPath efi ts) = none) :
    (fs.isDir t.1.path = true →
      (backupStage efi ts extracted fs).lookup (backupPath efi ts ++ [t.1.name]) =
        fs.lookup t.1.path ∧
      (backupStage efi ts extracted fs).lookup t.1.path = none ∧
      (backupStage efi ts extracted fs).lookup (backupPath efi ts) = some FObj.dir) ∧
    (fs.lookup t.1.path = none →
      (backupStage efi ts extracted fs).lookup (backupPath efi ts ++ [t.1.name]) = none ∧
      (backupStage efi ts extracted fs).lookup t.1.path = none) ∧
    ((∀ u ∈ extracted, fs.lookup u.1.path = none) → backupStage efi ts extracted fs = fs) := by
  have hc3 : (∀ u ∈ extracted, fs.lookup u.1.path = none) →
      backupStage efi ts extracted fs = fs := by
    intro hall
    have hnil : extracted.filter (fun u => fs.isDir u.1.path) = [] := by
      rw [List.filter_eq_nil_iff]
      intro u hu
      simp [FS.isDir, hall u hu]
    simp [backupStage, hnil]
  have hkey : ∀ x y, x ∈ extracted → y ∈ extracted →
      backupPath efi ts ++ [x.1.name] = backupPath efi ts ++ [y.1.name] → x = y := by
    intro x y hx hy h
    have hname : x.1.name = y.1.name := by
      have := List.append_cancel_left h
      simpa using this
    exact List.inj_on_of_nodup_map hnames hx hy hname
  have hpathinj : ∀ x y, x ∈ extracted → y ∈ extracted → x.1.path = y.1.path → x = y :=
    fun x y hx hy h => List.inj_on_of_nodup_map hpaths hx hy h
  have hfs1 : fs.mkdirp (backupPath efi ts) = fs.insert (backupPath efi ts) .dir := by
    simp [FS.mkdirp, hbp]
  have hsubmem : ∀ u ∈ extracted.filter (fun u => fs.isDir u.1.path), u ∈ extracted :=
    fun u hu => (List.mem_filter.mp hu).1
  have hsubdir : ∀ u ∈ extracted.filter (fun u => fs.isDir u.1.path),
      fs.isDir u.1.path = true := fun u hu => (List.mem_filter.mp hu).2
  have hsubpaths : ((extracted.filter (fun u => fs.isDir u.1.path)).map
      (fun u => u.1.path)).Nodup :=
    List.Nodup.sublist (List.Sublist.map _ (List.filter_sublist _)) hpaths
  have hsubnames : ((extracted.filter (fun u => fs.isDir u.1.path)).map
      (fun u => u.1.name)).Nodup :=
    List.Nodup.sublist (List.Sublist.map _ (List.filter_sublist _)) hnames
  have hlook1 : ∀ u ∈ extracted,
      (fs.mkdirp (backupPath efi ts)).lookup u.1.path = fs.lookup u.1.path := by
    intro u hu
    rw [hfs1]
    exact FS.lookup_insert_ne _ _ _ _ (fun h => hnotbp u hu h.symm)
  have hlook2 : ∀ u ∈ extracted,
      (fs.mkdirp (backupPath efi ts)).lookup (backupPath efi ts ++ [u.1.name]) = none := by
    intro u hu
    rw [hfs1, FS.lookup_insert_ne _ _ _ _ (ne_append_singleton _ _)]
    exact htargets u hu
  obtain ⟨hmoved, hframe⟩ := foldl_move_spec (backupPath efi ts)
    (extracted.filter (fun u => fs.isDir u.1.path)) (fs.mkdirp (backupPath efi ts))
    hsubpaths hsubnames
    (fun u hu => by
      rw [hlook1 u (hsubmem u hu)]
      exact FS.isSome_of_isDir fs _ (hsubdir u hu))
    (fun u hu => hlook2 u (hsubmem u hu))
    (fun u hu v hv => hdisj u (hsubmem u hu) v (hsubmem v hv))
  refine ⟨?_, ?_, hc3⟩
  · intro hdir
    have htex : t ∈ extracted.filter (fun u => fs.isDir u.1.path) :=
      List.mem_filter.mpr ⟨hmem, hdir⟩
    have hpos : 0 < (extracted.filter (fun u => fs.isDir u.1.path)).length :=
      List.length_pos.mpr (List.ne_nil_of_mem htex)
    have hfsB : backupStage efi ts extracted fs =
        (extracted.filter (fun u => fs.isDir u.1.path)).foldl
          (fun acc u => acc.move u.1.path (backupPath efi ts ++ [u.1.name]))
          (fs.mkdirp (backupPath efi ts)) := by
      simp [backupStage, hpos]
    rw [hfsB]
    refine ⟨?_, ?_, ?_⟩
    · rw [(hmoved t htex).1]
      exact hlook1 t hmem
    · exact (hmoved t htex).2
    · rw [hframe (backupPath efi ts) (by
        intro u hu
        exact ⟨fun h => hnotbp u (hsubmem u hu) h.symm, ne_append_singleton _ _⟩)]
      rw [hfs1]
      exact FS.lookup_insert_self _ _ _
  · intro hnone
    have htnotex : t ∉ extracted.filter (fun u => fs.isDir u.1.path) := by
      intro hin
      have := hsubdir t hin
      simp [FS.isDir, hnone] at this
    by_cases hex : 0 < (extracted.filter (fun u => fs.isDir u.1.path)).length
    · have hfsB : backupStage efi ts extracted fs =
          (extracted.filter (fun u => fs.isDir u.1.path)).foldl
            (fun acc u => acc.move u.1.path (backupPath efi ts ++ [u.1.name]))
            (fs.mkdirp (backupPath efi ts)) := by
        simp [backupStage, hex]
      rw [hfsB]
      constructor
      · rw [hframe (backupPath efi ts ++ [t.1.name]) (by
          intro u hu
          refine ⟨fun h => hdisj u (hsubmem u hu) t hmem h.symm, fun h => ?_⟩
          exact htnotex (hkey t u hmem (hsubmem u hu) h ▸ hu))]
        exact hlook2 t hmem
      · rw [hframe t.1.path (by
          intro u hu
          refine ⟨fun h => htnotex (hpathinj t u hmem (hsubmem u hu) h ▸ hu), ?_⟩
          exact hdisj t hmem u (hsubmem u hu))]
        rw [hlook1 t hmem]
        exact hnone
    · have hfsB : backupStage efi ts extracted fs = fs := by
        simp [backupStage, hex]
      rw [hfsB]
      exact ⟨htargets t hmem, hnone⟩

/-- Witness for the amended C3: a batch with one previously installed package
(Lilu) and one fresh package (Foo); Lilu.kext is moved to Backups/ts/Lilu,
Foo is skipped, and the all-fresh sub-case leaves the filesystem unchanged. -/
theorem backup_stage_spec_witness :
    (preFS.isDir liluKext.path = true →
      (backupStage ["EFI"] "07-15 10-30"
          [(liluKext, ["tmp", "extract", "Lilu.kext"]),
           (⟨["EFI", "OC", "Kexts", "Foo.kext"], "Foo", "1.0", none, none, none⟩,
            ["tmp", "extract", "Foo.kext"])] preFS).lookup
        (backupPath ["EFI"] "07-15 10-30" ++ ["Lilu"]) = preFS.lookup liluKext.path ∧
      (backupStage ["EFI"] "07-15 10-30"
          [(liluKext, ["tmp", "extract", "Lilu.kext"]),
           (⟨["EFI", "OC", "Kexts", "Foo.kext"], "Foo", "1.0", none, none, none⟩,
            ["tmp", "extract", "Foo.kext"])] preFS).lookup liluKext.path = none ∧
      (backupStage ["EFI"] "07-15 10-30"
          [(liluKext, ["tmp", "extract", "Lilu.kext"]),
           (⟨["EFI", "OC", "Kexts", "Foo.kext"], "Foo", "1.0", none, none, none⟩,
            ["tmp", "extract", "Foo.kext"])] preFS).lookup
        (backupPath ["EFI"] "07-15 10-30") = some FObj.dir) ∧
    (preFS.lookup liluKext.path = none →
      (backupStage ["EFI"] "07-15 10-30"
          [(liluKext, ["tmp", "extract", "Lilu.kext"]),
           (⟨["EFI", "OC", "Kexts", "Foo.kext"], "Foo", "1.0", none, none, none⟩,
            ["tmp", "extract", "Foo.kext"])] preFS).lookup
        (backupPath ["EFI"] "07-15 10-30" ++ ["Lilu"]) = none ∧
      (backupStage ["EFI"] "07-15 10-30"
          [(liluKext, ["tmp", "extract", "Lilu.kext"]),
           (⟨["EFI", "OC", "Kexts", "Foo.kext"], "Foo", "1.0", none, none, none⟩,
            ["tmp", "extract", "Foo.kext"])] preFS).lookup liluKext.path = none) ∧
    ((∀ u ∈ [(liluKext, (["tmp", "extract", "Lilu.kext"] : FPath)),
           (⟨["EFI", "OC", "Kexts", "Foo.kext"], "Foo", "1.0", none, none, none⟩,
            ["tmp", "extract", "Foo.kext"])], preFS.lookup u.1.path = none) →
      backupStage ["EFI"] "07-15 10-30"
          [(liluKext, ["tmp", "extract", "Lilu.kext"]),
           (⟨["EFI", "OC", "Kexts", "Foo.kext"], "Foo", "1.0", none, none, none⟩,
            ["tmp", "extract", "Foo.kext"])] preFS = preFS) :=
  backup_stage_spec ["EFI"] "07-15 10-30"
    [(liluKext, ["tmp", "extract", "Lilu.kext"]),
     (⟨["EFI", "OC", "Kexts", "Foo.kext"], "Foo", "1.0", none, none, none⟩,
      ["tmp", "extract", "Foo.kext"])] preFS
    (liluKext, ["tmp", "extract", "Lilu.kext"])
    (by decide) (by decide) (by decide) (by decide) (by decide) (by decide) (by decide)

/-! ## Manifest patching (src/ocpm/main.py, enable) -/

/-- A plist value as read or written by the enable code. -/
inductive PVal where
  | str (s : String)
  | bool (b : Bool)
deriving Repr, DecidableEq

/-- A plist dictionary: ordered key/value pairs (keys unique in practice). -/
abbrev PDict := List (String × PVal)

/-- Reading d[k] on a plist dict: the first matching pair. -/
def pdictGet (d : PDict) (k : String) : Option PVal :=
  match d with
  | [] => none
  | e :: d => if e.1 = k then some e.2 else pdictGet d k

/-- Python dict assignment d[k] = v: replaces the value of an existing key in
place (keeping its position), else appends a new pair. -/
def pdictSet (d : PDict) (k : String) (v : PVal) : PDict :=
  match d with
  | [] => [(k, v)]
  | e :: d => if e.1 = k then (e.1, v) :: d else e :: pdictSet d k v

theorem pdictGet_pdictSet_self (d : PDict) (k : String) (v : PVal) :
    pdictGet (pdictSet d k v) k = some v := by
  induction d with
  | nil => simp [pdictSet, pdictGet]
  | cons e d ih =>
    by_cases he : e.1 = k
    · simp [pdictSet, pdictGet, he]
    · simp only [pdictSet, if_neg he, pdictGet, ih]

theorem pdictGet_pdictSet_ne (d : PDict) (k q : String) (v : PVal) (h : q ≠ k) :
    pdictGet (pdictSet d k v) q = pdictGet d q := by
  induction d with
  | nil => simp [pdictSet, pdictGet, Ne.symm h]
  | cons e d ih =>
    by_cases he : e.1 = k
    · simp [pdictSet, pdictGet, he, Ne.symm h]
    · by_cases heq : e.1 = q
      · simp [pdictSet, pdictGet, he, heq, h]
      · simp [pdictSet, pdictGet, he, heq, ih]

/-- Python Path.name: the last path component. -/
def lastName (p : FPath) : String := p.getLast?.getD ""

/-- The configuration key of a kernel-extension entry, as built by the
conf_kext_index dict comprehension (main.py line 217): the BundlePath value up
to the bundle suffix. `none` when the entry has no string BundlePath (the code
would raise KeyError there; the theorems below concern well-formed entries). -/
def confKey (e : PDict) : Option String :=
  match pdictGet e "BundlePath" with
  | some (.str s) => some (strBefore s ".kext")
  | _ => none

/-- The entry index that the conf_kext_index dict maps `key` to: the last entry
whose configuration key is `key` (later comprehension entries overwrite
earlier ones), as a position in the entries list. -/
def lastMatchIdx (entries : List PDict) (key : String) : Option Nat :=
  ((List.range entries.length).filter
    (fun i => confKey (entries.getD i []) == some key)).getLast?

/-- The fresh configuration entry synthesized for a package with no existing
entry (main.py lines 228-245), including the executable auto-detection. -/
def newEntry (isFileF : FPath → Bool) (isDirF : FPath → Bool)
    (listdirF : FPath → List String) (k : Kext) : PDict :=
  let ep0 := "Contents/MacOS/" ++ k.name
  let ep1 := if isFileF (k.path ++ ["Contents", "MacOS", k.name]) then ep0 else ""
  let ep2 :=
    if ep1 = "" ∧ isDirF (k.path ++ ["Contents", "MacOS"]) then
      match listdirF (k.path ++ ["Contents", "MacOS"]) with
      | [] => ep1
      | e :: _ => "Contents/MacOS/" ++ e
    else ep1
  [("Arch", .str "x86_64"),
   ("BundlePath", .str (lastName k.path)),
   ("Comment", .str ""),
   ("Enabled", .bool true),
   ("ExecutablePath", .str ep2),
   ("MaxKernel", .str ""),
   ("MinKernel", .str ""),
   ("PlistPath", .str "Contents/Info.plist")]

/-- The body of the per-package loop of enable (main.py lines 226-247): append a
synthesized entry when the package has none, otherwise set the Enabled flag of
the (last) matching entry. -/
def enableStep (isFileF : FPath → Bool) (isDirF : FPath → Bool)
    (listdirF : FPath → List String) (entries : List PDict) (k : Kext) : List PDict :=
  match lastMatchIdx entries k.name with
  | none => entries ++ [newEntry isFileF isDirF listdirF k]
  | some i => entries.set i (pdictSet (entries.getD i []) "Enabled" (.bool true))

/-- The kext lookup key: the bundle directory name, lowercased, up to the
bundle suffix (main.py line 220). -/
def kextKey (k : Kext) : String := strBefore (lowerStr (lastName k.path)) ".kext"

/-- The dict-comprehension index over installed kexts: the last kext with a
given key wins. -/
def kextIndex (kexts : List Kext) (s : String) : Option Kext :=
  match kexts with
  | [] => none
  | k :: rest =>
    match kextIndex rest s with
    | some r => some r
    | none => if kextKey k = s then some k else none

/-- main.py enable (lines 212-250), acting on the Kernel/Add entries list of
Config.plist; the surrounding plist read and full-file rewrite carry the rest
of the configuration through unchanged. Filesystem probes for executable
detection are abstracted as isFileF/isDirF/listdirF. A requested name that
resolves to no installed kext raises an uncaught AssertionError (line 223)
before any modification; the first such name, in request order, is reported. -/
def enable_body (names : List String) (kexts : List Kext)
    (isFileF : FPath → Bool) (isDirF : FPath → Bool) (listdirF : FPath → List String)
    (entries : List PDict) : Except PyErr (List PDict) :=
  let sel := names.map (fun n => kextIndex kexts (lowerStr n))
  match names.find? (fun n => (kextIndex kexts (lowerStr n)).isNone) with
  | some bad => .error (.assertionError (bad ++ " is not found"))
  | none =>
    .ok ((sel.filterMap id).foldl (fun es k => enableStep isFileF isDirF listdirF es k) entries)

/-! ### Claim C7: frame property of enabling an existing entry -/

/-- Claim C7: for a requested package whose configuration entry already exists
(by the code's criterion: some entry's BundlePath-derived key equals the
package record's name), enable only sets that entry's Enabled flag to true:
the updated entry agrees with the old one on every other key, and every other
entry of the list is untouched. -/
theorem enable_existing_entry_frame (isFileF isDirF : FPath → Bool)
    (listdirF : FPath → List String) (entries : List PDict) (k : Kext)
    (i : Nat) (e : PDict)
    (hi : lastMatchIdx entries k.name = some i)
    (he : entries.get? i = some e) :
    enableStep isFileF isDirF listdirF entries k =
      entries.set i (pdictSet e "Enabled" (.bool true)) ∧
    pdictGet (pdictSet e "Enabled" (.bool true)) "Enabled" = some (.bool true) ∧
    (∀ key, key ≠ "Enabled" →
      pdictGet (pdictSet e "Enabled" (.bool true)) key = pdictGet e key) ∧
    (∀ j, j ≠ i →
      (entries.set i (pdictSet e "Enabled" (.bool true))).get? j = entries.get? j) := by
  refine ⟨?_, pdictGet_pdictSet_self e "Enabled" (.bool true),
    fun key hkey => pdictGet_pdictSet_ne e "Enabled" key (.bool true) hkey, ?_⟩
  · unfold enableStep
    rw [hi]
    show entries.set i (pdictSet (entries.getD i []) "Enabled" (.bool true)) = _
    have he' : entries[i]? = some e := by rw [← List.get?_eq_getElem?]; exact he
    have hgetd : entries.getD i [] = e := by simp [List.getD, he']
    rw [hgetd]
  · intro j hj
    exact List.get?_set_ne _ _ (fun h => hj h.symm)

/-- A config entry for another package, with unrelated field values. -/
def otherEntry : PDict :=
  [("Arch", .str "x86_64"), ("BundlePath", .str "Other.kext"), ("Comment", .str "keep me"),
   ("Enabled", .bool true), ("ExecutablePath", .str "Contents/MacOS/Other"),
   ("MaxKernel", .str ""), ("MinKernel", .str ""), ("PlistPath", .str "Contents/Info.plist")]

/-- A pre-existing, disabled config entry for Lilu with a custom comment. -/
def liluEntry : PDict :=
  [("Arch", .str "x86_64"), ("BundlePath", .str "Lilu.kext"), ("Comment", .str "mine"),
   ("Enabled", .bool false), ("ExecutablePath", .str "Contents/MacOS/Lilu"),
   ("MaxKernel", .str ""), ("MinKernel", .str ""), ("PlistPath", .str "Contents/Info.plist")]

/-- Witness for C7: enabling Lilu against a two-entry list flips only the
Enabled flag of the Lilu entry. -/
theorem enable_existing_entry_frame_witness :
    enableStep (fun _ => false) (fun _ => false) (fun _ => [])
        [otherEntry, liluEntry] liluKext =
      [otherEntry, liluEntry].set 1 (pdictSet liluEntry "Enabled" (.bool true)) ∧
    pdictGet (pdictSet liluEntry "Enabled" (.bool true)) "Enabled" = some (.bool true) ∧
    (∀ key, key ≠ "Enabled" →
      pdictGet (pdictSet liluEntry "Enabled" (.bool true)) key = pdictGet liluEntry key) ∧
    (∀ j, j ≠ 1 →
      ([otherEntry, liluEntry].set 1 (pdictSet liluEntry "Enabled" (.bool true))).get? j =
        [otherEntry, liluEntry].get? j) :=
  enable_existing_entry_frame (fun _ => false) (fun _ => false) (fun _ => [])
    [otherEntry, liluEntry] liluKext 1 liluEntry (by rfl) (by rfl)

/-! ### Claim C8: unmatched enable targets -/

/-- Counterexample to C8 as stated: requested names Lilu and NotThere, with only
Lilu installed. The unmatched target is not recovered: the whole enable batch
fails with the AssertionError, no configuration change is produced, and the
matched sibling Lilu is not enabled either. -/
theorem enable_missing_not_recovered :
    enable_body ["Lilu", "NotThere"] [liluKext] (fun _ => false) (fun _ => false)
      (fun _ => []) [otherEntry, liluEntry] =
      .error (.assertionError "NotThere is not found") := by
  rfl

/-- Claim C8 (amended): a requested enable target matching no installed bundle
(by case-insensitive bundle directory name) raises an uncaught AssertionError
naming the first such target; the enable batch aborts before any configuration
modification, so none of the requested packages is enabled. -/
theorem enable_missing_target_aborts (names : List String) (kexts : List Kext)
    (isFileF isDirF : FPath → Bool) (listdirF : FPath → List String)
    (entries : List PDict) (n : String)
    (hn : n ∈ names)
    (hmiss : kextIndex kexts (lowerStr n) = none) :
    ∃ bad, enable_body names kexts isFileF isDirF listdirF entries =
      .error (.assertionError (bad ++ " is not found")) := by
  unfold enable_body
  cases hf : names.find? (fun m => (kextIndex kexts (lowerStr m)).isNone) with
  | none =>
    exfalso
    have := List.find?_eq_none.mp hf n hn
    simp [hmiss] at this
  | some bad =>
    refine ⟨bad, ?_⟩
    simp [hf]

/-- Witness for the amended C8 at the concrete two-target scenario. -/
theorem enable_missing_target_aborts_witness :
    ∃ bad, enable_body ["Lilu", "NotThere"] [liluKext] (fun _ => false) (fun _ => false)
      (fun _ => []) [otherEntry, liluEntry] =
      .error (.assertionError (bad ++ " is not found")) :=
  enable_missing_target_aborts ["Lilu", "NotThere"] [liluKext] (fun _ => false)
    (fun _ => false) (fun _ => []) [otherEntry, liluEntry] "NotThere"
    (by decide) (by rfl)

/-! ## Kext registry (src/ocpm/models.py Kext.from_path; main.py find_kexts) -/

/-- models.py Kext.from_path. On-disk plists are abstracted as a map from path
to parsed dictionary (`none` = no such file). The result pairs the diagnostics
printed with the outcome. When Contents/Info.plist is missing, the code prints
the error message and then still calls plist.read_bytes() on the missing path,
which raises FileNotFoundError; when present, the three required keys are read
(KeyError when absent), the two optional keys via .get, and a truthy DTSDKName
has every occurrence of macosx removed. -/
def Kext.from_path (path : FPath) (files : FPath → Option PDict) :
    List String × Except PyErr Kext :=
  let plistPath := path ++ ["Contents", "Info.plist"]
  match files plistPath with
  | none =>
    (["Error loading " ++ lastName path ++ ": Cannot find Info.plist"],
      .error .fileNotFoundError)
  | some d =>
    match pdictGet d "CFBundleName", pdictGet d "CFBundleIdentifier",
        pdictGet d "CFBundleVersion" with
    | some (.str name), some (.str bid), some (.str ver) =>
      let sdk := match pdictGet d "DTSDKName" with
        | some (.str s) => some (if s = "" then s else removeSub s "macosx")
        | _ => none
      let minos := match pdictGet d "LSMinimumSystemVersion" with
        | some (.str s) => some s
        | _ => none
      ([], .ok ⟨path, name, ver, some bid, sdk, minos⟩)
    | _, _, _ => ([], .error .keyError)

/-- Worker for find_kexts: the list comprehension maps Kext.from_path over the
bundle names; an exception raised for one bundle aborts the whole scan. -/
def findKextsGo (dir : FPath) (files : FPath → Option PDict) :
    List String → List String × Except PyErr (List Kext)
  | [] => ([], .ok [])
  | f :: rest =>
    let r1 := Kext.from_path (dir ++ [f]) files
    match r1.2 with
    | .error e => (r1.1, .error e)
    | .ok k =>
      let r2 := findKextsGo dir files rest
      (r1.1 ++ r2.1, r2.2.map (fun ks => k :: ks))

/-- main.py find_kexts: scans EFI/OC/Kexts for entries whose lowercased name
ends in the bundle suffix and parses each. -/
def find_kexts (efi : FPath) (listdirF : FPath → List String)
    (files : FPath → Option PDict) : List String × Except PyErr (List Kext) :=
  let dir := efi ++ ["OC", "Kexts"]
  let names := (listdirF dir).filter (fun f => strEndsWith (lowerStr f) ".kext")
  findKextsGo dir files names

/-! ### Claim C9: missing manifest handling -/

/-- A plist map where only Good.kext has a manifest. -/
def regFiles : FPath → Option PDict := fun p =>
  if p = ["EFI", "OC", "Kexts", "Good.kext", "Contents", "Info.plist"] then
    some [("CFBundleName", .str "Good"), ("CFBundleIdentifier", .str "org.good"),
          ("CFBundleVersion", .str "1.0")]
  else none

/-- Claim C9 evaluated at the failing input: for a bundle whose
Contents/Info.plist is missing, the code emits the diagnostic but then raises
FileNotFoundError reading the absent file, so no degraded record is returned
and the scan of the remaining bundles (Good.kext) is aborted. -/
theorem from_path_missing_plist_crashes :
    Kext.from_path ["EFI", "OC", "Kexts", "Broken.kext"] regFiles =
      (["Error loading Broken.kext: Cannot find Info.plist"], .error .fileNotFoundError) ∧
    find_kexts ["EFI"] (fun _ => ["Broken.kext", "Good.kext", "notes.txt"]) regFiles =
      (["Error loading Broken.kext: Cannot find Info.plist"], .error .fileNotFoundError) := by
  constructor <;> rfl

/-! ## Version comparison (main.py line 161)

The code decides whether a fetched tag is newer than the installed version with
version.parse(tag) > version.parse(installed) from the third-party packaging
library, which implements PEP 440. The library is not part of this repository;
the definitions below model its documented PEP 440 grammar and comparison key
(epoch, release with trailing zeros stripped, then pre/post/dev/local markers). -/

/-- The value of a run of decimal digits. -/
def digitsVal (ds : List Char) : Nat := ds.foldl (fun n c => 10 * n + (c.toNat - 48)) 0

/-- Takes a leading run of decimal digits, if any. -/
def takeDigits? (cs : List Char) : Option (Nat × List Char) :=
  match cs.takeWhile Char.isDigit with
  | [] => none
  | ds => some (digitsVal ds, cs.drop ds.length)

/-- A PEP 440 separator character. -/
def isSepCh (c : Char) : Bool := c == '-' || c == '_' || c == '.'

/-- Drops one optional leading separator. -/
def dropSep (cs : List Char) : List Char :=
  match cs with
  | c :: rest => if isSepCh c then rest else cs
  | [] => []

/-- Optional epoch prefix: digits followed by an exclamation mark. -/
def parseEpoch (cs : List Char) : Nat × List Char :=
  match takeDigits? cs with
  | some (n, '!' :: rest) => (n, rest)
  | _ => (0, cs)

/-- Further dot-separated numeric release segments; fuel bounds the recursion. -/
def parseRelMore : Nat → List Char → (List Nat × List Char)
  | 0, cs => ([], cs)
  | fuel + 1, cs =>
    match cs with
    | '.' :: rest =>
      match takeDigits? rest with
      | some (n, rest2) =>
        let (ns, r) := parseRelMore fuel rest2
        (n :: ns, r)
      | none => ([], cs)
    | _ => ([], cs)

/-- The release segment list: digits, then further dot-digit groups. -/
def parseRelease (cs : List Char) : Option (List Nat × List Char) :=
  match takeDigits? cs with
  | none => none
  | some (n, rest) =>
    let (ns, r) := parseRelMore rest.length rest
    some (n :: ns, r)

/-- A tagged marker: an optional separator, a spelling from `lits` (tried in
the given order, longest spellings first), an optional separator, and an
optional number defaulting to zero; the spelling is normalized to the second
component. Fails without consuming anything when no spelling matches. -/
def parseTagWord (lits : List (List Char × String)) (cs : List Char) :
    Option (String × Nat × List Char) :=
  let csW := dropSep cs
  match lits.find? (fun l => l.1.isPrefixOf csW) with
  | none => none
  | some l =>
    let rest := csW.drop l.1.length
    let restS := dropSep rest
    match takeDigits? restS with
    | some (n, r) => some (l.2, n, r)
    | none => some (l.2, 0, restS)

/-- Pre-release spellings and their normal forms, longest first. -/
def preWords : List (List Char × String) :=
  [("alpha".data, "a"), ("beta".data, "b"), ("preview".data, "rc"), ("pre".data, "rc"),
   ("rc".data, "rc"), ("a".data, "a"), ("b".data, "b"), ("c".data, "rc")]

/-- Post-release spellings, longest first. -/
def postWords : List (List Char × String) :=
  [("post".data, "post"), ("rev".data, "post"), ("r".data, "post")]

/-- Development-release spelling. -/
def devWords : List (List Char × String) := [("dev".data, "dev")]

/-- Post-release marker: the implicit form, a hyphen followed by digits, or a
spelled form. -/
def parsePost (cs : List Char) : Option Nat × List Char :=
  match cs with
  | '-' :: rest =>
    match takeDigits? rest with
    | some (n, r) => (some n, r)
    | none =>
      match parseTagWord postWords cs with
      | some (_, n, r) => (some n, r)
      | none => (none, cs)
  | _ =>
    match parseTagWord postWords cs with
    | some (_, n, r) => (some n, r)
    | none => (none, cs)

/-- Development-release marker. -/
def parseDev (cs : List Char) : Option Nat × List Char :=
  match parseTagWord devWords cs with
  | some (_, n, r) => (some n, r)
  | none => (none, cs)

/-- A local-version segment: numeric segments compare as numbers, textual ones
as strings and below every numeric one. -/
inductive LocalSeg where
  | num (n : Nat)
  | str (s : String)
deriving Repr, DecidableEq

/-- A character allowed in a local-version segment (input already lowercased). -/
def isLocAlnum (c : Char) : Bool := c.isDigit || (decide ('a' ≤ c) && decide (c ≤ 'z'))

/-- One local-version segment. -/
def takeLocSeg (cs : List Char) : Option (LocalSeg × List Char) :=
  match cs.takeWhile isLocAlnum with
  | [] => none
  | ds =>
    some (if ds.all Char.isDigit then .num (digitsVal ds) else .str ⟨ds⟩, cs.drop ds.length)

/-- Further separator-prefixed local segments; fuel bounds the recursion. -/
def parseLocalMore : Nat → List Char → (List LocalSeg × List Char)
  | 0, cs => ([], cs)
  | fuel + 1, cs =>
    match cs with
    | c :: rest =>
      if isSepCh c then
        match takeLocSeg rest with
        | some (seg, r) =>
          let (segs, r2) := parseLocalMore fuel r
          (seg :: segs, r2)
        | none => ([], cs)
      else ([], cs)
    | [] => ([], cs)

/-- Optional local version: a plus sign followed by segments; a plus sign with
no valid segment makes the whole version invalid. -/
def parseLocal (cs : List Char) : Option (Option (List LocalSeg) × List Char) :=
  match cs with
  | '+' :: rest =>
    match takeLocSeg rest with
    | none => none
    | some (seg, r) =>
      let (segs, r2) := parseLocalMore r.length r
      some (some (seg :: segs), r2)
  | _ => some (none, cs)

/-- Strips leading and trailing whitespace. -/
def trimWs (cs : List Char) : List Char :=
  ((cs.dropWhile Char.isWhitespace).reverse.dropWhile Char.isWhitespace).reverse

/-- A parsed PEP 440 version. -/
structure PepVersion where
  epoch : Nat
  release : List Nat
  pre : Option (String × Nat)
  post : Option Nat
  dev : Option Nat
  loc : Option (List LocalSeg)
deriving Repr, DecidableEq

/-- Modelled from PEP 440 as implemented by the packaging library the code
imports (not part of this repository): parse a version string, `none` when it
is not a valid version (packaging raises InvalidVersion). The string is
lowercased and trimmed, an optional v prefix dropped, and epoch, release,
pre/post/dev markers and local version read in order; the whole string must be
consumed. -/
def parsePep (s : String) : Option PepVersion :=
  let cs0 := trimWs (s.data.map Char.toLower)
  let cs1 := match cs0 with
    | 'v' :: r => r
    | _ => cs0
  let ec := parseEpoch cs1
  match parseRelease ec.2 with
  | none => none
  | some (rel, cs2) =>
    let prr := match parseTagWord preWords cs2 with
      | some (l, n, r) => (some (l, n), r)
      | none => (none, cs2)
    let por := parsePost prr.2
    let der := parseDev por.2
    match parseLocal der.2 with
    | none => none
    | some (lc, cs3) =>
      if cs3 = [] then some ⟨ec.1, rel, prr.1, por.1, der.1, lc⟩ else none

/-- Python tuple comparison of equal-kind number lists: lexicographic, a strict
prefix is smaller. -/
def listNatCmp : List Nat → List Nat → Ordering
  | [], [] => .eq
  | [], _ :: _ => .lt
  | _ :: _, [] => .gt
  | a :: as, b :: bs => (compare a b).then (listNatCmp as bs)

/-- Removes trailing zero segments (packaging drops them before comparing). -/
def stripTZ (l : List Nat) : List Nat :=
  ((l.reverse.dropWhile (fun n => n == 0)).reverse)

/-- Python string comparison: lexicographic by code point. -/
def strCmp : List Char → List Char → Ordering
  | [], [] => .eq
  | [], _ :: _ => .lt
  | _ :: _, [] => .gt
  | c :: cs, d :: ds => (compare c.toNat d.toNat).then (strCmp cs ds)

/-- The pre-release slot of the comparison key. -/
inductive PreKey where
  | negInf
  | val (l : String) (n : Nat)
  | inf
deriving Repr, DecidableEq

def preKeyCmp : PreKey → PreKey → Ordering
  | .negInf, .negInf => .eq
  | .negInf, _ => .lt
  | _, .negInf => .gt
  | .inf, .inf => .eq
  | .inf, _ => .gt
  | _, .inf => .lt
  | .val l1 n1, .val l2 n2 => (strCmp l1.data l2.data).then (compare n1 n2)

/-- packaging _cmpkey: a plain release sorts above its pre-releases; a bare
development release sorts below everything with the same release. -/
def preKey (v : PepVersion) : PreKey :=
  match v.pre with
  | some (l, n) => .val l n
  | none => if v.post = none ∧ v.dev ≠ none then .negInf else .inf

/-- Post slot: absent sorts lowest. -/
def postKeyCmp : Option Nat → Option Nat → Ordering
  | none, none => .eq
  | none, some _ => .lt
  | some _, none => .gt
  | some x, some y => compare x y

/-- Dev slot: absent sorts highest. -/
def devKeyCmp : Option Nat → Option Nat → Ordering
  | none, none => .eq
  | none, some _ => .gt
  | some _, none => .lt
  | some x, some y => compare x y

def locSegCmp : LocalSeg → LocalSeg → Ordering
  | .num x, .num y => compare x y
  | .str x, .str y => strCmp x.data y.data
  | .num _, .str _ => .gt
  | .str _, .num _ => .lt

def locListCmp : List LocalSeg → List LocalSeg → Ordering
  | [], [] => .eq
  | [], _ :: _ => .lt
  | _ :: _, [] => .gt
  | a :: as, b :: bs => (locSegCmp a b).then (locListCmp as bs)

/-- Local slot: absent sorts lowest. -/
def locKeyCmp : Option (List LocalSeg) → Option (List LocalSeg) → Ordering
  | none, none => .eq
  | none, some _ => .lt
  | some _, none => .gt
  | some x, some y => locListCmp x y

/-- The PEP 440 total order on parsed versions, by comparison key. -/
def cmpPep (x y : PepVersion) : Ordering :=
  (compare x.epoch y.epoch).then
    ((listNatCmp (stripTZ x.release) (stripTZ y.release)).then
      ((preKeyCmp (preKey x) (preKey y)).then
        ((postKeyCmp x.post y.post).then
          ((devKeyCmp x.dev y.dev).then
            (locKeyCmp x.loc y.loc)))))

def pepLt (x y : PepVersion) : Bool := cmpPep x y == .lt

/-- The comparison at main.py line 161: whether candidate tag `t` is strictly
newer than installed version `v`, i.e. version.parse(t) > version.parse(v).
`none` models the InvalidVersion exception when either side fails to parse. -/
def newer (v t : String) : Option Bool :=
  match parsePep v, parsePep t with
  | some x, some y => some (pepLt x y)
  | _, _ => none

/-! ### The comparator as described by the specification (for refinement) -/

/-- A segment that Python int() accepts (as used by the spec's description). -/
def segIsInt (s : List Char) : Bool := !s.isEmpty && s.all Char.isDigit

/-- Spec-described segment comparison: numeric when both segments parse as
integers, literal string comparison otherwise. -/
def segCmpSpec (a b : List Char) : Ordering :=
  if segIsInt a && segIsInt b then compare (digitsVal a) (digitsVal b) else strCmp a b

/-- Spec-described comparison against zeros once the candidate side is
exhausted: remaining installed-side segments are compared with a zero segment. -/
def newerSpecNilV : List (List Char) → Bool
  | [] => false
  | b :: bs =>
    match segCmpSpec ['0'] b with
    | .lt => true
    | .gt => false
    | .eq => newerSpecNilV bs

/-- Symmetric helper: the installed side is exhausted. -/
def newerSpecNilT : List (List Char) → Bool
  | [] => false
  | a :: as =>
    match segCmpSpec a ['0'] with
    | .lt => true
    | .gt => false
    | .eq => newerSpecNilT as

/-- Spec-described comparator on split segment lists: pairwise left to right,
missing trailing segments read as zero, first difference decides. -/
def newerSpecGo : List (List Char) → List (List Char) → Bool
  | [], bs => newerSpecNilV bs
  | a :: as, [] =>
    match segCmpSpec a ['0'] with
    | .lt => true
    | .gt => false
    | .eq => newerSpecNilT as
  | a :: as, b :: bs =>
    match segCmpSpec a b with
    | .lt => true
    | .gt => false
    | .eq => newerSpecGo as bs

/-- The version comparator exactly as the specification section 4.3 words it:
both versions split on dots and compared segmentwise. -/
def newerSpec (v t : String) : Bool :=
  newerSpecGo (splitSub v.data ['.']) (splitSub t.data ['.'])

/-! ### Claim C1: the version comparator -/

/-- Counterexample to C1 as stated: segments that are not both integral are NOT
compared as literal strings. Under the spec's description newer("1.0", "1.0a")
is true (string "0a" exceeds "0"), but the code's PEP 440 comparison reads a
trailing letter as a pre-release marker ordering before the base version, so
the code answers false. -/
theorem newer_not_string_compare :
    newerSpec "1.0" "1.0a" = true ∧ newer "1.0" "1.0a" = some false := by
  constructor <;> rfl

/-- Comparison of zeros against the remaining right-hand segments, used once
the left list is exhausted. -/
def padCmpNilL : List Nat → Ordering
  | [] => .eq
  | b :: bs => (compare 0 b).then (padCmpNilL bs)

/-- Comparison of the remaining left-hand segments against zeros. -/
def padCmpNilR : List Nat → Ordering
  | [] => .eq
  | a :: as => (compare a 0).then (padCmpNilR as)

/-- Zero-padded numeric left-to-right comparison, as the specification words
the treatment of missing trailing segments. -/
def padNatCmp : List Nat → List Nat → Ordering
  | [], bs => padCmpNilL bs
  | a :: as, [] => (compare a 0).then (padCmpNilR as)
  | a :: as, b :: bs => (compare a b).then (padNatCmp as bs)

theorem padNatCmp_nil_right : ∀ a, padNatCmp a [] = padCmpNilR a := by
  intro a
  cases a with
  | nil => rfl
  | cons x xs => rfl

theorem padCmpNilR_rep_zero : ∀ k, padCmpNilR (List.replicate k 0) = .eq := by
  intro k
  induction k with
  | zero => rfl
  | succ k ih =>
    rw [List.replicate_succ]
    show (compare 0 0).then (padCmpNilR (List.replicate k 0)) = .eq
    rw [ih]
    rfl

theorem padCmpNilL_rep_zero : ∀ k, padCmpNilL (List.replicate k 0) = .eq := by
  intro k
  induction k with
  | zero => rfl
  | succ k ih =>
    rw [List.replicate_succ]
    show (compare 0 0).then (padCmpNilL (List.replicate k 0)) = .eq
    rw [ih]
    rfl

theorem padNatCmp_rep_zero_left (b : List Nat) :
    ∀ k, padNatCmp (List.replicate k 0) b = padNatCmp [] b := by
  induction b with
  | nil =>
    intro k
    rw [padNatCmp_nil_right, padCmpNilR_rep_zero k]
    rfl
  | cons c bs ih =>
    intro k
    cases k with
    | zero => rfl
    | succ k =>
      rw [List.replicate_succ]
      show (compare 0 c).then (padNatCmp (List.replicate k 0) bs) =
        (compare 0 c).then (padNatCmp [] bs)
      rw [ih k]

theorem padNatCmp_rep_zero_right (a : List Nat) :
    ∀ k, padNatCmp a (List.replicate k 0) = padNatCmp a [] := by
  induction a with
  | nil =>
    intro k
    show padCmpNilL (List.replicate k 0) = padCmpNilL []
    rw [padCmpNilL_rep_zero k]
    rfl
  | cons x xs ih =>
    intro k
    cases k with
    | zero => rfl
    | succ k =>
      rw [List.replicate_succ]
      show (compare x 0).then (padNatCmp xs (List.replicate k 0)) =
        (compare x 0).then (padCmpNilR xs)
      rw [ih k, padNatCmp_nil_right]

theorem padNatCmp_append_rep_left (a : List Nat) :
    ∀ (k : Nat) (b : List Nat), padNatCmp (a ++ List.replicate k 0) b = padNatCmp a b := by
  induction a with
  | nil => intro k b; rw [List.nil_append]; exact padNatCmp_rep_zero_left b k
  | cons x xs ih =>
    intro k b
    cases b with
    | nil =>
      show (compare x 0).then (padCmpNilR (xs ++ List.replicate k 0)) =
        (compare x 0).then (padCmpNilR xs)
      rw [← padNatCmp_nil_right, ← padNatCmp_nil_right, ih k []]
    | cons c bs =>
      show (compare x c).then (padNatCmp (xs ++ List.replicate k 0) bs) =
        (compare x c).then (padNatCmp xs bs)
      rw [ih k bs]

theorem padNatCmp_append_rep_right (b : List Nat) :
    ∀ (k : Nat) (a : List Nat), padNatCmp a (b ++ List.replicate k 0) = padNatCmp a b := by
  induction b with
  | nil => intro k a; rw [List.nil_append]; exact padNatCmp_rep_zero_right a k
  | cons c cs ih =>
    intro k a
    cases a with
    | nil =>
      show (compare 0 c).then (padCmpNilL (cs ++ List.replicate k 0)) =
        (compare 0 c).then (padCmpNilL cs)
      have h1 : padCmpNilL (cs ++ List.replicate k 0) = padCmpNilL cs := ih k []
      rw [h1]
    | cons x xs =>
      show (compare x c).then (padNatCmp xs (cs ++ List.replicate k 0)) =
        (compare x c).then (padNatCmp xs cs)
      rw [ih k xs]

theorem stripTZ_decomp (l : List Nat) : ∃ k, l = stripTZ l ++ List.replicate k 0 := by
  refine ⟨(l.reverse.takeWhile (fun n => n == 0)).length, ?_⟩
  unfold stripTZ
  conv_lhs => rw [← l.reverse_reverse,
    ← List.takeWhile_append_dropWhile (p := fun n => n == 0) (l := l.reverse),
    List.reverse_append]
  congr 1
  rw [List.eq_replicate]
  refine ⟨by rw [List.length_reverse], ?_⟩
  intro b hb
  rw [List.mem_reverse] at hb
  have := List.mem_takeWhile_imp hb
  simpa using this

/-- No trailing zero segment. -/
def noTZ (l : List Nat) : Prop := ∀ x, l.getLast? = some x → x ≠ 0

theorem head?_dropWhile_zero (l : List Nat) :
    ∀ x, (l.dropWhile (fun n => n == 0)).head? = some x → x ≠ 0 := by
  induction l with
  | nil => intro x h; simp [List.dropWhile] at h
  | cons c cs ih =>
    intro x h
    rw [List.dropWhile_cons] at h
    by_cases hc : c = 0
    · rw [if_pos (by simp [hc])] at h
      exact ih x h
    · rw [if_neg (by simp [hc])] at h
      simp at h
      rw [← h]
      exact hc

theorem noTZ_stripTZ (l : List Nat) : noTZ (stripTZ l) := by
  intro x hx
  unfold stripTZ at hx
  rw [List.getLast?_reverse] at hx
  exact head?_dropWhile_zero l.reverse x hx

theorem noTZ_tail {x : Nat} {xs : List Nat} (h : noTZ (x :: xs)) : noTZ xs := by
  intro y hy
  apply h y
  cases xs with
  | nil => simp at hy
  | cons z zs => rw [List.getLast?_cons_cons]; exact hy

theorem padCmpNilL_lt : ∀ (b : List Nat), noTZ b → b ≠ [] → padCmpNilL b = .lt := by
  intro b
  induction b with
  | nil => intro _ hne; exact absurd rfl hne
  | cons c bs ih =>
    intro hb _
    by_cases hc : c = 0
    · subst hc
      have hbs : bs ≠ [] := by
        intro h
        subst h
        exact hb 0 (by simp) rfl
      show (compare 0 0).then (padCmpNilL bs) = .lt
      have h0 : compare (0 : Nat) 0 = Ordering.eq := by decide
      rw [h0]
      exact ih (noTZ_tail hb) hbs
    · have hlt : compare 0 c = Ordering.lt := Nat.compare_eq_lt.mpr (Nat.pos_of_ne_zero hc)
      show (compare 0 c).then (padCmpNilL bs) = .lt
      rw [hlt]
      rfl

theorem padCmpNilR_gt : ∀ (a : List Nat), noTZ a → a ≠ [] → padCmpNilR a = .gt := by
  intro a
  induction a with
  | nil => intro _ hne; exact absurd rfl hne
  | cons x xs ih =>
    intro ha _
    by_cases hx : x = 0
    · subst hx
      have hxs : xs ≠ [] := by
        intro h
        subst h
        exact ha 0 (by simp) rfl
      show (compare 0 0).then (padCmpNilR xs) = .gt
      have h0 : compare (0 : Nat) 0 = Ordering.eq := by decide
      rw [h0]
      exact ih (noTZ_tail ha) hxs
    · have hgt : compare x 0 = Ordering.gt := Nat.compare_eq_gt.mpr (Nat.pos_of_ne_zero hx)
      show (compare x 0).then (padCmpNilR xs) = .gt
      rw [hgt]
      rfl

theorem padNatCmp_nil_lt (b : List Nat) (hb : noTZ b) (hne : b ≠ []) :
    padNatCmp [] b = .lt :=
  padCmpNilL_lt b hb hne

theorem padNatCmp_nil_gt (a : List Nat) (ha : noTZ a) (hne : a ≠ []) :
    padNatCmp a [] = .gt := by
  rw [padNatCmp_nil_right]
  exact padCmpNilR_gt a ha hne

theorem listNatCmp_eq_padNatCmp :
    ∀ (a b : List Nat), noTZ a → noTZ b → listNatCmp a b = padNatCmp a b := by
  intro a
  induction a with
  | nil =>
    intro b _ hb
    cases b with
    | nil => rfl
    | cons c bs =>
      rw [padNatCmp_nil_lt (c :: bs) hb (by simp)]
      rfl
  | cons x xs ih =>
    intro b ha hb
    cases b with
    | nil =>
      rw [padNatCmp_nil_gt (x :: xs) ha (by simp)]
      rfl
    | cons c bs =>
      show (compare x c).then (listNatCmp xs bs) = (compare x c).then (padNatCmp xs bs)
      rw [ih bs (noTZ_tail ha) (noTZ_tail hb)]

theorem listNatCmp_strip_eq_pad (a b : List Nat) :
    listNatCmp (stripTZ a) (stripTZ b) = padNatCmp a b := by
  rw [listNatCmp_eq_padNatCmp _ _ (noTZ_stripTZ a) (noTZ_stripTZ b)]
  obtain ⟨k1, hk1⟩ := stripTZ_decomp a
  obtain ⟨k2, hk2⟩ := stripTZ_decomp b
  conv_rhs => rw [hk1, hk2]
  rw [padNatCmp_append_rep_left, padNatCmp_append_rep_right]

theorem ordering_then_eq (o : Ordering) : o.then Ordering.eq = o := by
  cases o <;> rfl

/-- Claim C1 (amended): the comparator answers the spec's numeric examples as
stated — newer("1.2.3","1.2.4") and newer("1.9.0","1.10.0") are true (numeric,
not lexicographic), newer("1.2","1.2.0") and its converse are false (equal),
and equal versions are never newer — and, on versions that are pure numeric
releases, it decides strictly-newer exactly by the left-to-right numeric
comparison with missing trailing segments read as zero. Non-numeric segments
are NOT compared as literal strings: they follow PEP 440 (a trailing letter is
a pre-release, so newer("1.0","1.0a") is false). -/
theorem newer_numeric_behaviour (x y : PepVersion)
    (hx : x.epoch = 0 ∧ x.pre = none ∧ x.post = none ∧ x.dev = none ∧ x.loc = none)
    (hy : y.epoch = 0 ∧ y.pre = none ∧ y.post = none ∧ y.dev = none ∧ y.loc = none) :
    newer "1.2.3" "1.2.4" = some true ∧
    newer "1.9.0" "1.10.0" = some true ∧
    newer "1.2" "1.2.0" = some false ∧
    newer "1.2.0" "1.2" = some false ∧
    newer "1.0" "1.0" = some false ∧
    pepLt x y = (padNatCmp x.release y.release == Ordering.lt) := by
  obtain ⟨hxe, hxp, hxpo, hxd, hxl⟩ := hx
  obtain ⟨hye, hyp, hypo, hyd, hyl⟩ := hy
  refine ⟨rfl, rfl, rfl, rfl, rfl, ?_⟩
  have hpx : preKey x = .inf := by simp [preKey, hxp, hxpo, hxd]
  have hpy : preKey y = .inf := by simp [preKey, hyp, hypo, hyd]
  unfold pepLt cmpPep
  rw [hxe, hye, hxpo, hypo, hxd, hyd, hxl, hyl, hpx, hpy]
  have h0 : compare (0 : Nat) 0 = Ordering.eq := by decide
  rw [h0]
  show ((listNatCmp (stripTZ x.release) (stripTZ y.release)).then Ordering.eq
      == Ordering.lt) = _
  rw [ordering_then_eq, listNatCmp_strip_eq_pad]

/-- Witness for the amended C1, with the pure-release part instantiated at the
releases 1.2 and 1.2.3. -/
theorem newer_numeric_behaviour_witness :
    newer "1.2.3" "1.2.4" = some true ∧
    newer "1.9.0" "1.10.0" = some true ∧
    newer "1.2" "1.2.0" = some false ∧
    newer "1.2.0" "1.2" = some false ∧
    newer "1.0" "1.0" = some false ∧
    pepLt ⟨0, [1, 2], none, none, none, none⟩ ⟨0, [1, 2, 3], none, none, none, none⟩ =
      (padNatCmp [1, 2] [1, 2, 3] == Ordering.lt) :=
  newer_numeric_behaviour ⟨0, [1, 2], none, none, none, none⟩
    ⟨0, [1, 2, 3], none, none, none, none⟩
    ⟨rfl, rfl, rfl, rfl, rfl⟩ ⟨rfl, rfl, rfl, rfl, rfl⟩

end OCPM
